import Mathlib

/-!
Verification of the scheduler and synchronization core of a user-level
threading library (`src/thread.cpp`).

The development is a shallow embedding of the guarded critical sections of
the library.  Pointers (`thread::impl*`, `cpu*`, `thread*`) are modelled as
natural-number identifiers; `std::queue` values are Lean lists with the head
at the front; `nullptr`-able fields are `Option`; a C++ `throw` is an
`Except.error` value, and since every throw in the source happens before the
first mutation of the guarded state, the state is threaded through unchanged
on the error path.  Functions that block inside `run_next` are split at the
context switch: the straight-line part up to the switch is a pure function,
and the behaviour across switches (hand-off, re-lock, join wake-up, deferred
free) is captured by labelled transition systems whose steps are the guarded
critical sections of the source.
-/

namespace ThreadLib

/-- Thread identifiers stand for `thread::impl*` pointer values. -/
abbrev Tid := Nat

/-- CPU identifiers stand for `cpu*` pointer values. -/
abbrev CpuId := Nat

/-- Handle identifiers stand for `thread*` (user-visible handle) pointer
values. -/
abbrev HId := Nat

/-- Errors thrown by the library; both user-visible error kinds are
`std::runtime_error` values with the quoted message. -/
inductive ThreadErr
  | runtime_error (msg : String)
deriving DecidableEq

/-- The global scheduler queues of `thread.cpp` (lines 7-10) that the
straight-line mutex/constructor code touches, together with a trace of the
IPIs sent by `interrupt_send` (one entry per wakeup actually delivered). -/
structure Globals where
  ready_queue : List Tid
  idle_queue : List Tid
  suspended_queue : List CpuId
  ipi_sent : List CpuId
deriving DecidableEq

/-- Function `wakeup_one_cpu` (lines 27-41): if both the ready queue and the
suspended-CPU queue are non-empty, send an IPI to the front suspended CPU and
pop it. -/
def wakeup_one_cpu (g : Globals) : Globals :=
  match g.ready_queue, g.suspended_queue with
  | _ :: _, c :: cs =>
      { g with suspended_queue := cs, ipi_sent := g.ipi_sent ++ [c] }
  | _, _ => g

/-- State of `class mutex::impl` (lines 288-321): the owning thread
(`nullptr` = unlocked) and the FIFO wait queue of blocked lockers. -/
structure MutexImpl where
  own_thd : Option Tid
  thd_q : List Tid
deriving DecidableEq

/-- Method `mutex::impl::unlock` (lines 306-320).  `current` is the value of
`cpu::impl::current()` for the calling thread.  The throw on line 310 happens
before any write, so the error branch returns the mutex and the globals
unchanged.  Otherwise the owner is cleared and, if the wait queue is
non-empty, the head waiter becomes the owner, is pushed onto the ready queue,
and `wakeup_one_cpu` runs once. -/
def MutexImpl.unlock (m : MutexImpl) (current : Tid) (g : Globals) :
    Except ThreadErr Unit × MutexImpl × Globals :=
  if m.own_thd ≠ some current then
    (.error (.runtime_error "release not-own"), m, g)
  else
    let m1 : MutexImpl := { m with own_thd := none }
    match m1.thd_q with
    | [] => (.ok (), m1, g)
    | h :: rest =>
        let g1 : Globals := { g with ready_queue := g.ready_queue ++ [h] }
        (.ok (), { own_thd := some h, thd_q := rest }, wakeup_one_cpu g1)

/-- Method `mutex::impl::lock` (lines 293-304), up to the context switch: if
the mutex is owned the caller is appended to the wait queue and blocks in
`run_next` (result flag `true`); otherwise the caller becomes the owner and
returns at once (flag `false`). -/
def MutexImpl.lock (m : MutexImpl) (current : Tid) : MutexImpl × Bool :=
  if m.own_thd ≠ none then
    ({ m with thd_q := m.thd_q ++ [current] }, true)
  else
    ({ m with own_thd := some current }, false)

/-- State of `class cv::impl` (lines 348-379): the FIFO wait queue. -/
structure CvImpl where
  thd_q : List Tid
deriving DecidableEq

/-- Method `cv::impl::wait` (lines 352-358) up to the `run_next` context
switch: `mtx->unlock()` runs first, so a throw there propagates before the
caller is pushed onto the CV wait queue.  The re-lock after resumption is
covered by the transition system `MStep` below. -/
def CvImpl.wait_enter (c : CvImpl) (m : MutexImpl) (current : Tid)
    (g : Globals) : Except ThreadErr Unit × CvImpl × MutexImpl × Globals :=
  match m.unlock current g with
  | (.error e, m', g') => (.error e, c, m', g')
  | (.ok _, m', g') => (.ok (), { thd_q := c.thd_q ++ [current] }, m', g')

/-- One context-switch action performed by `run_next`: `swapcontext` saves
the old thread and resumes the next one; `setcontext` resumes the next one
without saving (first run on a CPU). -/
inductive SwitchAct
  | swap_context (old next : Tid)
  | set_context (next : Tid)
deriving DecidableEq

/-- The state read and written by `cpu::impl::run_next` as seen from the
calling CPU: the two global pick queues and this CPU's `current_thd`. -/
structure RNState where
  ready_queue : List Tid
  idle_queue : List Tid
  current_thd : Option Tid
deriving DecidableEq

/-- Lines 97-104 of `run_next`: swap when the old current thread is non-null,
set (no save) when it is null. -/
def switch_of (old : Option Tid) (next : Tid) : SwitchAct :=
  match old with
  | some o => .swap_context o next
  | none => .set_context next

/-- Method `cpu::impl::run_next` (lines 76-107), without the deferred-free
tail that runs on the resumed thread (that tail is covered by `DStep` below).
The next thread is popped from the ready queue, or from the idle queue when
the ready queue is empty; `none` models the undefined `front()` on two empty
queues, which the boot protocol makes unreachable. -/
def run_next (s : RNState) : Option (RNState × SwitchAct) :=
  match s.ready_queue with
  | n :: rest =>
      some ({ ready_queue := rest, idle_queue := s.idle_queue,
              current_thd := some n }, switch_of s.current_thd n)
  | [] =>
      match s.idle_queue with
      | n :: rest =>
          some ({ ready_queue := [], idle_queue := rest,
                  current_thd := some n }, switch_of s.current_thd n)
      | [] => none

/-- Function-pointer values passed to the thread constructor: a null pointer,
`idle_func`, or any other (user) function. -/
inductive FnVal
  | null
  | idle_fn
  | user_fn (code : Nat)
deriving DecidableEq

/-- Constructor `thread::impl::impl` (lines 173-196): a null function throws
before any queue is touched; `idle_func` threads go onto the idle queue;
every other thread goes onto the ready queue followed by one
`wakeup_one_cpu` call. -/
def thread_impl_ctor (this_t : Tid) (fn : FnVal) (g : Globals) :
    Except ThreadErr Unit × Globals :=
  match fn with
  | .null => (.error (.runtime_error "nullptr function"), g)
  | .idle_fn => (.ok (), { g with idle_queue := g.idle_queue ++ [this_t] })
  | .user_fn _ =>
      let g1 : Globals := { g with ready_queue := g.ready_queue ++ [this_t] }
      (.ok (), wakeup_one_cpu g1)

/-- Global state seen by a public entry point: the queues plus the guard
flag. -/
structure GSys where
  globals : Globals
  guard : Bool
deriving DecidableEq

/-- Constructor `thread::thread` (lines 232-236): the scoped
`cpu::impl::lock_guard` acquires the guard and releases it on both the
normal exit and the exceptional one (its destructor runs during stack
unwinding). -/
def thread_ctor (this_t : Tid) (fn : FnVal) (s : GSys) :
    Except ThreadErr Unit × GSys :=
  let locked : GSys := { s with guard := true }
  match thread_impl_ctor this_t fn locked.globals with
  | (.error e, g2) => (.error e, { globals := g2, guard := false })
  | (.ok _, g2) => (.ok (), { globals := g2, guard := false })

/-- Continuation of a thread blocked inside the mutex/CV protocol: the point
at which it resumes when `run_next` later switches back to it.
`lockRet fromWait`: blocked inside `mutex::impl::lock` (line 298); on resume,
`lock` returns (and, when `fromWait` is set, the lock call was the re-lock on
line 357 of `cv::impl::wait`, so `wait` returns too).  `relock`: blocked
inside `cv::impl::wait` (line 356); on resume it calls `mtx->lock()`
(line 357). -/
inductive Kont
  | lockRet (fromWait : Bool)
  | relock
deriving DecidableEq

/-- Where one thread currently is, relative to one mutex/CV pair.  The FIFO
order of the wait queues is abstracted away (membership only): the property
proved below is order-independent, and the source's choice of the queue head
is one of the choices the relation allows.  The exact FIFO hand-off is proved
separately on `MutexImpl.unlock`. -/
inductive MStat
  | outside
  | running
  | inMtxQ (fromWait : Bool)
  | inCvQ
  | inReady (k : Kont)
deriving DecidableEq

/-- State of the mutex/CV protocol: the mutex owner field plus the status of
every thread. -/
structure MSys where
  own_thd : Option Tid
  st : Tid → MStat

/-- Labels of the guarded critical sections of the mutex/CV protocol. -/
inductive MEv
  | spawn (t : Tid)
  | lockAcq (t : Tid)
  | lockBlk (t : Tid)
  | unlockEv (t : Tid)
  | waitBlk (t : Tid)
  | signalEv (t : Tid)
  | lockRetEv (t : Tid)
  | waitRet (t : Tid)
deriving DecidableEq

/-- One guarded critical section of the mutex/CV subsystem.  Each constructor
is one straight-line guarded block of `thread.cpp`:
`lockAcq`/`lockBlk` are the two branches of `mutex::impl::lock`
(lines 293-304); `unlockNoWaiter`/`unlockHandoff` the two branches of a legal
`mutex::impl::unlock` (lines 306-320) — on hand-off the waiter becomes the
owner and goes onto the ready queue; `waitBlkNoWaiter`/`waitBlkHandoff` are
`cv::impl::wait` up to its `run_next` (lines 354-356, the unlock running
first); `signal` is `cv::impl::signal` (lines 360-368); the `resume…` steps
are a later `run_next` switching back to a blocked thread: a resumed plain
locker returns from `lock`, a resumed waiter whose pending lock was the
re-lock returns from `wait`, and a thread resuming inside `wait` executes the
re-lock `mtx->lock()` of line 357 (acquiring, or blocking in the mutex
queue).  `spawn` lets a fresh thread enter the protocol. -/
inductive MStep : MSys → MEv → MSys → Prop
  | spawn (s : MSys) (t : Tid) (ht : s.st t = .outside) :
      MStep s (.spawn t) ⟨s.own_thd, Function.update s.st t .running⟩
  | lockAcq (s : MSys) (t : Tid) (ht : s.st t = .running)
      (ho : s.own_thd = none) :
      MStep s (.lockAcq t) ⟨some t, s.st⟩
  | lockBlk (s : MSys) (t u : Tid) (ht : s.st t = .running)
      (ho : s.own_thd = some u) :
      MStep s (.lockBlk t) ⟨s.own_thd, Function.update s.st t (.inMtxQ false)⟩
  | unlockNoWaiter (s : MSys) (t : Tid) (ht : s.st t = .running)
      (ho : s.own_thd = some t) (hq : ∀ u f, s.st u ≠ .inMtxQ f) :
      MStep s (.unlockEv t) ⟨none, s.st⟩
  | unlockHandoff (s : MSys) (t h : Tid) (f : Bool) (ht : s.st t = .running)
      (ho : s.own_thd = some t) (hh : s.st h = .inMtxQ f) :
      MStep s (.unlockEv t)
        ⟨some h, Function.update s.st h (.inReady (.lockRet f))⟩
  | waitBlkNoWaiter (s : MSys) (t : Tid) (ht : s.st t = .running)
      (ho : s.own_thd = some t) (hq : ∀ u f, s.st u ≠ .inMtxQ f) :
      MStep s (.waitBlk t) ⟨none, Function.update s.st t .inCvQ⟩
  | waitBlkHandoff (s : MSys) (t h : Tid) (f : Bool) (ht : s.st t = .running)
      (ho : s.own_thd = some t) (hh : s.st h = .inMtxQ f) :
      MStep s (.waitBlk t)
        ⟨some h,
          Function.update (Function.update s.st t .inCvQ) h
            (.inReady (.lockRet f))⟩
  | signal (s : MSys) (h : Tid) (hh : s.st h = .inCvQ) :
      MStep s (.signalEv h)
        ⟨s.own_thd, Function.update s.st h (.inReady .relock)⟩
  | resumeLockRetPlain (s : MSys) (t : Tid)
      (hr : s.st t = .inReady (.lockRet false)) :
      MStep s (.lockRetEv t) ⟨s.own_thd, Function.update s.st t .running⟩
  | resumeLockRetWait (s : MSys) (t : Tid)
      (hr : s.st t = .inReady (.lockRet true)) :
      MStep s (.waitRet t) ⟨s.own_thd, Function.update s.st t .running⟩
  | resumeRelockAcq (s : MSys) (t : Tid) (hr : s.st t = .inReady .relock)
      (ho : s.own_thd = none) :
      MStep s (.waitRet t) ⟨some t, Function.update s.st t .running⟩
  | resumeRelockBlk (s : MSys) (t u : Tid) (hr : s.st t = .inReady .relock)
      (ho : s.own_thd = some u) :
      MStep s (.lockBlk t) ⟨s.own_thd, Function.update s.st t (.inMtxQ true)⟩

/-- The boot state of the mutex/CV protocol: unlocked, nobody involved. -/
def MInit : MSys := ⟨none, fun _ => .outside⟩

/-- States reachable from boot through the guarded critical sections. -/
inductive MReach : MSys → Prop
  | init : MReach MInit
  | step (s : MSys) (e : MEv) (s' : MSys) :
      MReach s → MStep s e s' → MReach s'

/-- Hand-off invariant of the mutex: every thread sitting on the ready queue
about to return from `mutex::impl::lock` is already the registered owner (it
was made the owner by the `unlock` that woke it, and nothing can change the
owner before it runs). -/
def MInv (s : MSys) : Prop :=
  ∀ t f, s.st t = .inReady (.lockRet f) → s.own_thd = some t

/-- Concrete run used as the C4 witness: thread 1 locks the mutex, calls
`cv::wait` (state `mW3`), thread 2 enters and signals (`mW5`), then thread 1
resumes and re-acquires the mutex on its way out of `wait` (`mW6`). -/
def mW1 : MSys := ⟨none, Function.update MInit.st 1 .running⟩

/-- Witness state after thread 1 acquires the mutex. -/
def mW2 : MSys := ⟨some 1, mW1.st⟩

/-- Witness state after thread 1 blocks in `cv::wait`. -/
def mW3 : MSys := ⟨none, Function.update mW2.st 1 .inCvQ⟩

/-- Witness state after thread 2 enters the protocol. -/
def mW4 : MSys := ⟨none, Function.update mW3.st 2 .running⟩

/-- Witness state after `cv::signal` moves thread 1 to the ready queue. -/
def mW5 : MSys := ⟨none, Function.update mW4.st 1 (.inReady .relock)⟩

/-- Witness state after thread 1 resumes and re-acquires the mutex. -/
def mW6 : MSys := ⟨some 1, Function.update mW5.st 1 .running⟩

/-- Status of a thread in the lifecycle (create/join/exit) protocol.  The
FIFO order of `ready_queue` and of each `join_thd` queue is abstracted to
membership; the properties proved about this system are order-independent. -/
inductive JStat
  | outside
  | readyS
  | runningS
  | inJoinQ (target : Tid)
  | exitedS
deriving DecidableEq

/-- State of the lifecycle protocol: each handle's `impl_ptr` field, each
internal thread's `parent` back-link, and every thread's status (`inJoinQ T`
means: sitting in `T`'s `join_thd` queue). -/
structure JSys where
  impl_ptr : HId → Option Tid
  parent : Tid → Option HId
  st : Tid → JStat

/-- Labels for the lifecycle critical sections. -/
inductive JEv
  | createEv (t : Tid) (h : HId)
  | runNextEv (t : Tid)
  | yieldEv (t : Tid)
  | joinImm (caller : Tid) (h : HId)
  | joinBlock (caller : Tid) (target : Tid)
  | exitEv (t : Tid)
deriving DecidableEq

/-- Status map after the exit wrapper of `T` runs (lines 208-220): `T`
itself has exited, every thread that was sitting in `T`'s join-waiters queue
is moved to the ready queue (the drain loop of lines 210-216), everyone else
is untouched. -/
def exitSt (st : Tid → JStat) (T : Tid) : Tid → JStat :=
  fun u => if u = T then .exitedS
    else if st u = .inJoinQ T then .readyS else st u

/-- Handle map after the exit wrapper's sever (lines 217-218): if the
exiting thread still has a parent handle, that handle's `impl_ptr` is
cleared; the thread's own `parent` field is left as it is (the source never
clears it). -/
def exitImpl (impl : HId → Option Tid) (p : Option HId) : HId → Option Tid :=
  match p with
  | some h => Function.update impl h none
  | none => impl

/-- One lifecycle critical section of `thread.cpp`.  `createEv` is
`thread::thread` with a non-null user function (lines 173-196, 232-236):
the fresh internal thread is linked to its handle and becomes ready.
`runNextEv` is a `run_next` picking the thread from the ready queue;
`yieldEv` is `thread::yield`/`timer_handler` pushing the running thread
back.  `joinImm`/`joinBlock` are the two branches of `thread::join`
(lines 268-276): with a null `impl_ptr` nothing at all happens; otherwise
the caller enters the target's join-waiters queue and switches away.
`exitEv` is the tail of `thread::impl::thread_start` after the user function
returned (lines 208-220): waiters drained to the ready queue, the handle's
pointer severed.  Handle moves and destruction are treated separately (they
are the subject of the `HSys` model below). -/
inductive JStep : JSys → JEv → JSys → Prop
  | createEv (s : JSys) (t : Tid) (h : HId) (ht : s.st t = .outside)
      (hh : s.impl_ptr h = none) (hp : ∀ u, s.parent u ≠ some h)
      (ho : ∀ h', s.impl_ptr h' ≠ some t) :
      JStep s (.createEv t h)
        ⟨Function.update s.impl_ptr h (some t),
          Function.update s.parent t (some h),
          Function.update s.st t .readyS⟩
  | runNextEv (s : JSys) (t : Tid) (ht : s.st t = .readyS) :
      JStep s (.runNextEv t)
        ⟨s.impl_ptr, s.parent, Function.update s.st t .runningS⟩
  | yieldEv (s : JSys) (t : Tid) (ht : s.st t = .runningS) :
      JStep s (.yieldEv t)
        ⟨s.impl_ptr, s.parent, Function.update s.st t .readyS⟩
  | joinImm (s : JSys) (caller : Tid) (h : HId) (hc : s.st caller = .runningS)
      (hh : s.impl_ptr h = none) :
      JStep s (.joinImm caller h) s
  | joinBlock (s : JSys) (caller T : Tid) (h : HId)
      (hc : s.st caller = .runningS) (hh : s.impl_ptr h = some T) :
      JStep s (.joinBlock caller T)
        ⟨s.impl_ptr, s.parent, Function.update s.st caller (.inJoinQ T)⟩
  | exitEv (s : JSys) (T : Tid) (ht : s.st T = .runningS) :
      JStep s (.exitEv T)
        ⟨exitImpl s.impl_ptr (s.parent T), s.parent, exitSt s.st T⟩

/-- The boot state of the lifecycle protocol. -/
def JInit : JSys := ⟨fun _ => none, fun _ => none, fun _ => .outside⟩

/-- Lifecycle states reachable from boot. -/
inductive JReach : JSys → Prop
  | init : JReach JInit
  | step (s : JSys) (e : JEv) (s' : JSys) : JReach s → JStep s e s' → JReach s'

/-- Lifecycle invariant: a handle whose `impl_ptr` is still set points at a
thread that has not exited (the exit wrapper clears the handle's pointer
before the thread is retired), and that thread's back-link designates this
handle. -/
def JInv (s : JSys) : Prop :=
  ∀ h t, s.impl_ptr h = some t → s.st t ≠ .exitedS ∧ s.parent t = some h

/-- Concrete run for the C5 witness: handle 0 owns thread 1 (running),
handle 1 owns thread 2; thread 2 joins thread 1 through handle 0. -/
def jW1 : JSys :=
  ⟨Function.update JInit.impl_ptr 0 (some 1),
    Function.update JInit.parent 1 (some 0),
    Function.update JInit.st 1 .readyS⟩

/-- Witness state after thread 1 is scheduled. -/
def jW2 : JSys := ⟨jW1.impl_ptr, jW1.parent, Function.update jW1.st 1 .runningS⟩

/-- Witness state after thread 2 is created under handle 1. -/
def jW3 : JSys :=
  ⟨Function.update jW2.impl_ptr 1 (some 2),
    Function.update jW2.parent 2 (some 1),
    Function.update jW2.st 2 .readyS⟩

/-- Witness state after thread 2 is scheduled. -/
def jW4 : JSys := ⟨jW3.impl_ptr, jW3.parent, Function.update jW3.st 2 .runningS⟩

/-- Witness state after thread 2 blocks joining thread 1. -/
def jW5 : JSys :=
  ⟨jW4.impl_ptr, jW4.parent, Function.update jW4.st 2 (.inJoinQ 1)⟩

/-- Status of a thread for the deferred-free protocol: `parked` is an exited
thread sitting in `last_free_thread` whose stack is still allocated; `freedS`
is an exited thread whose storage has been deleted. -/
inductive DStat
  | outside
  | readyS
  | runningOn (c : CpuId)
  | parked
  | freedS
deriving DecidableEq

/-- State of the deferred-free protocol: who holds the global guard flag,
whether some CPU is between an exiting thread's final `swapcontext`
(line 220 via line 99) and the resumed thread's `delete` (lines 105-106 or
200-201), the single global `last_free_thread` slot (line 10), and every
thread's status. -/
structure DSys where
  guard : Option CpuId
  mid_switch : Option CpuId
  last_free_thread : Option Tid
  st : Tid → DStat

/-- Labels for the deferred-free critical sections. -/
inductive DEv
  | lockEv (c : CpuId)
  | unlockEv (c : CpuId)
  | createEv (c : CpuId) (t : Tid)
  | switchEv (c : CpuId) (t next : Tid)
  | firstRunEv (c : CpuId) (next : Tid)
  | exitParkEv (c : CpuId) (t next : Tid)
  | reclaimEv (c : CpuId)
deriving DecidableEq

/-- Status map after the `delete last_free_thread; last_free_thread =
nullptr` pair (lines 105-106, also lines 200-201): the parked thread, if
any, is freed. -/
def reclaimSt (st : Tid → DStat) (slot : Option Tid) : Tid → DStat :=
  match slot with
  | some p => Function.update st p .freedS
  | none => st

/-- One guarded step of the deferred-free protocol.  `lockEv`/`unlockEv` are
`lock()`/`unlock()` (lines 13-23); the release can never happen between an
exit's swapcontext and the resumed thread's delete, because those two points
are adjacent in the control flow (line 99 resumes straight into line 105,
line 220 into line 200) — hence `mid_switch = none` on every step but
`reclaimEv`.  `switchEv` is an ordinary `run_next` with push-back (yield or
timer), `firstRunEv` the `setcontext` path on a CPU whose `current_thd` is
still null.  `exitParkEv` is the tail of `thread_start` (lines 219-220):
the exiting thread parks itself in `last_free_thread` and the CPU switches
to the next ready thread.  `reclaimEv` is the resumed thread's delete.  The
pick of `next` from the ready queue abstracts the ready/idle FIFO; the idle
thread stands among the ready ones here. -/
inductive DStep : DSys → DEv → DSys → Prop
  | lockEv (s : DSys) (c : CpuId) (hg : s.guard = none) :
      DStep s (.lockEv c) ⟨some c, s.mid_switch, s.last_free_thread, s.st⟩
  | unlockEv (s : DSys) (c : CpuId) (hg : s.guard = some c)
      (hm : s.mid_switch = none) :
      DStep s (.unlockEv c) ⟨none, s.mid_switch, s.last_free_thread, s.st⟩
  | createEv (s : DSys) (c : CpuId) (t : Tid) (hg : s.guard = some c)
      (hm : s.mid_switch = none) (ht : s.st t = .outside) :
      DStep s (.createEv c t)
        ⟨s.guard, s.mid_switch, s.last_free_thread,
          Function.update s.st t .readyS⟩
  | switchEv (s : DSys) (c : CpuId) (t next : Tid) (hg : s.guard = some c)
      (hm : s.mid_switch = none) (ht : s.st t = .runningOn c)
      (hn : s.st next = .readyS) :
      DStep s (.switchEv c t next)
        ⟨s.guard, s.mid_switch, s.last_free_thread,
          Function.update (Function.update s.st t .readyS) next
            (.runningOn c)⟩
  | firstRunEv (s : DSys) (c : CpuId) (next : Tid) (hg : s.guard = some c)
      (hm : s.mid_switch = none) (hn : s.st next = .readyS)
      (hc : ∀ t, s.st t ≠ .runningOn c) :
      DStep s (.firstRunEv c next)
        ⟨s.guard, s.mid_switch, s.last_free_thread,
          Function.update s.st next (.runningOn c)⟩
  | exitParkEv (s : DSys) (c : CpuId) (t next : Tid) (hg : s.guard = some c)
      (hm : s.mid_switch = none) (ht : s.st t = .runningOn c)
      (hn : s.st next = .readyS) :
      DStep s (.exitParkEv c t next)
        ⟨s.guard, some c, some t,
          Function.update (Function.update s.st t .parked) next
            (.runningOn c)⟩
  | reclaimEv (s : DSys) (c : CpuId) (hg : s.guard = some c)
      (hm : s.mid_switch = some c) :
      DStep s (.reclaimEv c)
        ⟨s.guard, none, none, reclaimSt s.st s.last_free_thread⟩

/-- The boot state of the deferred-free protocol. -/
def DInit : DSys := ⟨none, none, none, fun _ => .outside⟩

/-- Deferred-free states reachable from boot. -/
inductive DReach : DSys → Prop
  | init : DReach DInit
  | step (s : DSys) (e : DEv) (s' : DSys) : DReach s → DStep s e s' → DReach s'

/-- Deferred-free invariant: the `last_free_thread` slot and the set of
exited-but-unfreed (parked) threads coincide; the slot is occupied only
while some CPU is between the exit's swapcontext and the reclaim, and that
CPU holds the guard. -/
def DInv (s : DSys) : Prop :=
  (∀ t, s.last_free_thread = some t → s.st t = .parked) ∧
  (∀ t, s.st t = .parked → s.last_free_thread = some t) ∧
  (s.mid_switch = none → s.last_free_thread = none) ∧
  (∀ c, s.mid_switch = some c → s.guard = some c)

/-- Concrete run for the C8 witness: CPU 0 takes the guard, creates threads
5 and 6, starts running 5, and 5 exits, parking itself in the slot while 6
resumes. -/
def dW1 : DSys := ⟨some 0, none, none, DInit.st⟩

/-- Witness state after thread 5 is created. -/
def dW2 : DSys := ⟨some 0, none, none, Function.update dW1.st 5 .readyS⟩

/-- Witness state after thread 6 is created. -/
def dW3 : DSys := ⟨some 0, none, none, Function.update dW2.st 6 .readyS⟩

/-- Witness state after CPU 0 first runs thread 5. -/
def dW4 : DSys := ⟨some 0, none, none, Function.update dW3.st 5 (.runningOn 0)⟩

/-- Witness state after thread 5 exits and parks itself while 6 resumes. -/
def dW5 : DSys :=
  ⟨some 0, some 0, some 5,
    Function.update (Function.update dW4.st 5 .parked) 6 (.runningOn 0)⟩

/-- State of the handle↔internal link structure: the live user-visible
handles, the live internal threads (storage not yet deleted), each handle's
`impl_ptr` field and each internal thread's `parent` field. -/
structure HSys where
  hids : List HId
  tids : List Tid
  impl_ptr : HId → Option Tid
  parent : Tid → Option HId

/-- Move-assignment `thread::operator=` (lines 256-266), in the source's
statement order: `impl_ptr = other.impl_ptr; other.impl_ptr = nullptr;` and
then, if the destination's (new) pointer is non-null, re-point that thread's
back-link at the destination.  Nothing touches the destination's previous
internal thread. -/
def move_assign (dst src : HId) (s : HSys) : HSys :=
  let f1 := Function.update s.impl_ptr dst (s.impl_ptr src)
  let f2 := Function.update f1 src none
  match f2 dst with
  | some t =>
      { s with impl_ptr := f2,
               parent := Function.update s.parent t (some dst) }
  | none => { s with impl_ptr := f2 }

/-- Move-construction `thread::thread(thread&&)` (lines 245-254): the same
statements as move-assignment, on a brand-new destination handle. -/
def move_construct (dst src : HId) (s : HSys) : HSys :=
  let f1 := Function.update s.impl_ptr dst (s.impl_ptr src)
  let f2 := Function.update f1 src none
  match f2 dst with
  | some t =>
      { s with hids := s.hids ++ [dst], impl_ptr := f2,
               parent := Function.update s.parent t (some dst) }
  | none => { s with hids := s.hids ++ [dst], impl_ptr := f2 }

/-- Destructor `thread::~thread` (lines 238-243): if the handle still points
at an internal thread, clear that thread's back-link; the handle dies. -/
def handle_dtor (h : HId) (s : HSys) : HSys :=
  match s.impl_ptr h with
  | some t =>
      { s with hids := s.hids.erase h,
               parent := Function.update s.parent t none }
  | none => { s with hids := s.hids.erase h }

/-- The back-link sever performed by the exit wrapper (lines 217-218): the
handle's pointer is cleared; the exiting thread's own `parent` field is not
cleared — no statement in the source clears it. -/
def exit_sever (t : Tid) (s : HSys) : HSys :=
  match s.parent t with
  | some h => { s with impl_ptr := Function.update s.impl_ptr h none }
  | none => s

/-- Destructor `thread::impl::~impl` (lines 223-229), run by the deferred
`delete last_free_thread`: if the `parent` field is still set, write null
through it into that handle's `impl_ptr`; the internal thread's storage
dies. -/
def impl_dtor (t : Tid) (s : HSys) : HSys :=
  match s.parent t with
  | some h =>
      { s with tids := s.tids.erase t,
               impl_ptr := Function.update s.impl_ptr h none }
  | none => { s with tids := s.tids.erase t }

/-- The claimed handle↔internal invariant, as an executable check over the
live handles and threads: a handle's non-null pointer designates a live
thread whose back-link designates this handle, and a thread's non-null
back-link designates a live handle whose pointer designates this thread. -/
def linkedB (s : HSys) : Bool :=
  (s.hids.all fun h =>
    match s.impl_ptr h with
    | some t => s.tids.contains t && (s.parent t == some h)
    | none => true) &&
  (s.tids.all fun t =>
    match s.parent t with
    | some h => s.hids.contains h && (s.impl_ptr h == some t)
    | none => true)

/-- Concrete state for C6: handles 0 and 1 own internal threads 0 and 1,
mutually linked. -/
def hS0 : HSys :=
  ⟨[0, 1], [0, 1],
    fun h => if h = 0 then some 0 else if h = 1 then some 1 else none,
    fun t => if t = 0 then some 0 else if t = 1 then some 1 else none⟩

/-- Concrete state for C7: handle 0 owns (running) thread 0, handle 2 owns
thread 1, mutually linked. -/
def hS2 : HSys :=
  ⟨[0, 2], [0, 1],
    fun h => if h = 0 then some 0 else if h = 2 then some 1 else none,
    fun t => if t = 0 then some 0 else if t = 1 then some 2 else none⟩

end ThreadLib

namespace ThreadLib

/-- The hand-off invariant holds at boot. -/
theorem minv_init : MInv MInit := by
  intro t f h
  simp [MInit] at h

/-- The hand-off invariant is preserved by every guarded critical section. -/
theorem minv_step (s : MSys) (e : MEv) (s' : MSys) (hs : MInv s)
    (hstep : MStep s e s') : MInv s' := by
  cases hstep with
  | spawn t ht =>
      intro u f hu
      rcases eq_or_ne u t with rfl | hne
      · simp [Function.update_apply] at hu
      · exact hs u f (by simpa [Function.update_apply, hne] using hu)
  | lockAcq t ht ho =>
      intro u f hu
      have h1 := hs u f hu
      rw [ho] at h1
      exact absurd h1 (by simp)
  | lockBlk t u0 ht ho =>
      intro u f hu
      rcases eq_or_ne u t with rfl | hne
      · simp [Function.update_apply] at hu
      · exact hs u f (by simpa [Function.update_apply, hne] using hu)
  | unlockNoWaiter t ht ho hq =>
      intro u f hu
      have h1 := hs u f hu
      rw [ho] at h1
      have h2 : t = u := by simpa using h1
      rw [← h2, ht] at hu
      exact absurd hu (by simp)
  | unlockHandoff t h0 f0 ht ho hh =>
      intro u f hu
      rcases eq_or_ne u h0 with rfl | hne
      · rfl
      · have hsu : s.st u = .inReady (.lockRet f) := by
          simpa [Function.update_apply, hne] using hu
        have h1 := hs u f hsu
        rw [ho] at h1
        have h2 : t = u := by simpa using h1
        rw [← h2, ht] at hsu
        exact absurd hsu (by simp)
  | waitBlkNoWaiter t ht ho hq =>
      intro u f hu
      rcases eq_or_ne u t with rfl | hne
      · simp [Function.update_apply] at hu
      · have hsu : s.st u = .inReady (.lockRet f) := by
          simpa [Function.update_apply, hne] using hu
        have h1 := hs u f hsu
        rw [ho] at h1
        have h2 : t = u := by simpa using h1
        exact absurd h2.symm hne
  | waitBlkHandoff t h0 f0 ht ho hh =>
      intro u f hu
      rcases eq_or_ne u h0 with rfl | hne
      · rfl
      · rcases eq_or_ne u t with rfl | hnt
        · simp [Function.update_apply, hne] at hu
        · have hsu : s.st u = .inReady (.lockRet f) := by
            simpa [Function.update_apply, hne, hnt] using hu
          have h1 := hs u f hsu
          rw [ho] at h1
          have h2 : t = u := by simpa using h1
          exact absurd h2.symm hnt
  | signal h0 hh =>
      intro u f hu
      rcases eq_or_ne u h0 with rfl | hne
      · simp [Function.update_apply] at hu
      · exact hs u f (by simpa [Function.update_apply, hne] using hu)
  | resumeLockRetPlain t hr =>
      intro u f hu
      rcases eq_or_ne u t with rfl | hne
      · simp [Function.update_apply] at hu
      · exact hs u f (by simpa [Function.update_apply, hne] using hu)
  | resumeLockRetWait t hr =>
      intro u f hu
      rcases eq_or_ne u t with rfl | hne
      · simp [Function.update_apply] at hu
      · exact hs u f (by simpa [Function.update_apply, hne] using hu)
  | resumeRelockAcq t hr ho =>
      intro u f hu
      rcases eq_or_ne u t with rfl | hne
      · simp [Function.update_apply] at hu
      · have h1 := hs u f (by simpa [Function.update_apply, hne] using hu)
        rw [ho] at h1
        exact absurd h1 (by simp)
  | resumeRelockBlk t u0 hr ho =>
      intro u f hu
      rcases eq_or_ne u t with rfl | hne
      · simp [Function.update_apply] at hu
      · exact hs u f (by simpa [Function.update_apply, hne] using hu)

/-- The hand-off invariant holds in every reachable state. -/
theorem minv_reach (s : MSys) (h : MReach s) : MInv s := by
  induction h with
  | init => exact minv_init
  | step s e s' _ hstep ih => exact minv_step s e s' ih hstep

/-- C4: `cv::wait` called by the owner of the mutex first unlocks it (with
direct hand-off to a mutex waiter when one exists, per lines 306-320) and
puts the caller into the CV wait queue before switching away; and whenever a
`wait` call returns, the returning thread is the registered owner of the
mutex — the re-lock of line 357 completed, either immediately or through a
later hand-off — so on return the caller owns the mutex. -/
theorem cv_wait_spec :
    (∀ s t s', MStep s (.waitBlk t) s' →
      s.own_thd = some t ∧ s'.st t = .inCvQ ∧
      (s'.own_thd = none ∨
        ∃ h f, s.st h = .inMtxQ f ∧ s'.own_thd = some h ∧
          s'.st h = .inReady (.lockRet f))) ∧
    (∀ s t s', MReach s → MStep s (.waitRet t) s' →
      s'.own_thd = some t ∧ s'.st t = .running) := by
  constructor
  · intro s t s' hstep
    cases hstep with
    | waitBlkNoWaiter t0 ht ho hq =>
        exact ⟨ho, by simp [Function.update_apply], Or.inl rfl⟩
    | waitBlkHandoff t0 h0 f0 ht ho hh =>
        have hne : t ≠ h0 := by
          intro h
          rw [← h] at hh
          rw [ht] at hh
          exact absurd hh (by simp)
        refine ⟨ho, ?_, Or.inr ⟨h0, f0, hh, rfl, ?_⟩⟩
        · simp [Function.update_apply, hne]
        · simp [Function.update_apply]
  · intro s t s' hreach hstep
    cases hstep with
    | resumeLockRetWait t0 hr =>
        exact ⟨minv_reach s hreach t true hr, by simp [Function.update_apply]⟩
    | resumeRelockAcq t0 hr ho =>
        exact ⟨rfl, by simp [Function.update_apply]⟩

/-- Witness for C4: in the concrete run `mW1`-`mW6`, thread 1 returns from
`wait` owning the mutex. -/
theorem cv_wait_spec_witness : mW6.own_thd = some 1 ∧ mW6.st 1 = .running := by
  have r1 : MReach mW1 :=
    MReach.step MInit (.spawn 1) mW1 MReach.init (MStep.spawn MInit 1 rfl)
  have r2 : MReach mW2 :=
    MReach.step mW1 (.lockAcq 1) mW2 r1 (MStep.lockAcq mW1 1 rfl rfl)
  have hq2 : ∀ u f, mW2.st u ≠ .inMtxQ f := by
    intro u f
    rcases eq_or_ne u 1 with rfl | hne
    · simp [mW2, mW1, MInit, Function.update_apply]
    · simp [mW2, mW1, MInit, Function.update_apply, hne]
  have r3 : MReach mW3 :=
    MReach.step mW2 (.waitBlk 1) mW3 r2 (MStep.waitBlkNoWaiter mW2 1 rfl rfl hq2)
  have r4 : MReach mW4 :=
    MReach.step mW3 (.spawn 2) mW4 r3 (MStep.spawn mW3 2 rfl)
  have r5 : MReach mW5 :=
    MReach.step mW4 (.signalEv 1) mW5 r4 (MStep.signal mW4 1 rfl)
  exact cv_wait_spec.2 mW5 1 mW6 r5 (MStep.resumeRelockAcq mW5 1 rfl rfl)

/-- C1: on `unlock` by the current owner with a non-empty wait queue, the
head waiter is removed from the wait queue, becomes the owner, is pushed onto
the ready queue, and one `wakeup_one_cpu` call is made; moreover no legal
unlock ever produces a state that is unowned while waiters remain (the whole
step is one guarded critical section, so this is the only observable state
between the unlock and the waiter's resumption). -/
theorem mutex_unlock_handoff (m : MutexImpl) (cur hd : Tid) (rest : List Tid)
    (g : Globals) (hown : m.own_thd = some cur) (hq : m.thd_q = hd :: rest) :
    m.unlock cur g =
      (.ok (), { own_thd := some hd, thd_q := rest },
        wakeup_one_cpu { g with ready_queue := g.ready_queue ++ [hd] }) ∧
    (∀ (m0 : MutexImpl) (g0 : Globals) (r : Except ThreadErr Unit)
        (m' : MutexImpl) (g' : Globals),
      m0.own_thd = some cur → m0.unlock cur g0 = (r, m', g') →
      m'.thd_q ≠ [] → m'.own_thd ≠ none) := by
  constructor
  · simp [MutexImpl.unlock, hown, hq]
  · intro m0 g0 r m' g' h0 hu hne
    cases hq0 : m0.thd_q with
    | nil =>
        simp [MutexImpl.unlock, h0, hq0] at hu
        rcases hu with ⟨-, hm, -⟩
        rw [← hm] at hne
        simp [hq0] at hne
    | cons h1 t1 =>
        simp [MutexImpl.unlock, h0, hq0] at hu
        rcases hu with ⟨-, hm, -⟩
        rw [← hm]
        simp

/-- Witness for C1 at a concrete mutex and global state. -/
theorem mutex_unlock_handoff_witness :
    MutexImpl.unlock ⟨some 1, [2, 3]⟩ 1 ⟨[], [], [9], []⟩ =
      (.ok (), ⟨some 2, [3]⟩, ⟨[2], [], [], [9]⟩) := by
  have h := (mutex_unlock_handoff ⟨some 1, [2, 3]⟩ 1 2 [3] ⟨[], [], [9], []⟩
    rfl rfl).1
  simpa [wakeup_one_cpu] using h

/-- C2: `unlock` by a thread that is not the current owner (including an
unlocked mutex, whose owner is `none`) throws the ownership-violation error
and leaves the mutex state and the global queues unchanged. -/
theorem mutex_unlock_not_owner (m : MutexImpl) (cur : Tid) (g : Globals)
    (hnot : m.own_thd ≠ some cur) :
    m.unlock cur g = (.error (.runtime_error "release not-own"), m, g) := by
  simp [MutexImpl.unlock, hnot]

/-- Witness for C2: unlocking an unlocked mutex. -/
theorem mutex_unlock_not_owner_witness :
    MutexImpl.unlock ⟨none, []⟩ 1 ⟨[], [], [], []⟩ =
      (.error (.runtime_error "release not-own"), ⟨none, []⟩,
        ⟨[], [], [], []⟩) :=
  mutex_unlock_not_owner ⟨none, []⟩ 1 ⟨[], [], [], []⟩ (by decide)

/-- C3: `run_next` pops the head of the ready queue when it is non-empty and
otherwise the head of the idle queue, sets the calling CPU's `current_thd` to
the popped thread, and swaps contexts from the old thread when one exists,
else sets the context with no save. -/
theorem run_next_spec (s : RNState) :
    (∀ n rest, s.ready_queue = n :: rest →
      run_next s =
        some ((⟨rest, s.idle_queue, some n⟩ : RNState),
          switch_of s.current_thd n)) ∧
    (∀ n rest, s.ready_queue = [] → s.idle_queue = n :: rest →
      run_next s =
        some ((⟨[], rest, some n⟩ : RNState), switch_of s.current_thd n)) ∧
    (∀ o n, switch_of (some o) n = .swap_context o n) ∧
    (∀ n, switch_of none n = .set_context n) := by
  refine ⟨?_, ?_, fun o n => rfl, fun n => rfl⟩
  · intro n rest hr
    simp [run_next, hr]
  · intro n rest hr hi
    simp [run_next, hr, hi]

/-- Witness for C3: first run on a CPU (null `current_thd`) picking from the
ready queue. -/
theorem run_next_spec_witness :
    run_next ⟨[4], [7], none⟩ = some (⟨[], [7], some 4⟩, .set_context 4) := by
  have h := (run_next_spec ⟨[4], [7], none⟩).1 4 [] rfl
  simpa [switch_of] using h

/-- C9: constructing a thread with a null function throws the
invalid-argument error synchronously, leaves every queue unchanged and
releases the guard on the exceptional path; constructing with a non-null
user function pushes the new internal thread onto the ready queue and makes
one `wakeup_one_cpu` call (and also releases the guard). -/
theorem thread_ctor_spec (this_t : Tid) (fn : FnVal) (s : GSys) :
    (fn = .null →
      thread_ctor this_t fn s =
        (.error (.runtime_error "nullptr function"),
          (⟨s.globals, false⟩ : GSys))) ∧
    (∀ k, fn = .user_fn k →
      thread_ctor this_t fn s =
        (.ok (),
          (⟨wakeup_one_cpu
              (⟨s.globals.ready_queue ++ [this_t], s.globals.idle_queue,
                s.globals.suspended_queue, s.globals.ipi_sent⟩ : Globals),
            false⟩ : GSys))) := by
  constructor
  · intro hfn
    subst hfn
    simp [thread_ctor, thread_impl_ctor]
  · intro k hfn
    subst hfn
    simp [thread_ctor, thread_impl_ctor]

/-- Witness for C9: the null-function case at a concrete state with the
guard initially free, and a user-function case pushing onto ready. -/
theorem thread_ctor_spec_witness :
    thread_ctor 5 .null ⟨⟨[1], [2], [3], []⟩, false⟩ =
      (.error (.runtime_error "nullptr function"),
        ⟨⟨[1], [2], [3], []⟩, false⟩) ∧
    thread_ctor 5 (.user_fn 0) ⟨⟨[], [], [3], []⟩, false⟩ =
      (.ok (), ⟨⟨[5], [], [], [3]⟩, false⟩) := by
  constructor
  · exact (thread_ctor_spec 5 .null ⟨⟨[1], [2], [3], []⟩, false⟩).1 rfl
  · have h := (thread_ctor_spec 5 (.user_fn 0) ⟨⟨[], [], [3], []⟩, false⟩).2 0 rfl
    simpa [wakeup_one_cpu] using h

/-- C10: `cv::wait` by a thread that does not own the supplied mutex throws
the ownership-violation error from the internal unlock before the caller is
pushed onto the CV wait queue, leaving the CV wait queue, the mutex state and
the global queues unchanged. -/
theorem cv_wait_not_owner (c : CvImpl) (m : MutexImpl) (cur : Tid)
    (g : Globals) (hnot : m.own_thd ≠ some cur) :
    c.wait_enter m cur g =
      (.error (.runtime_error "release not-own"), c, m, g) := by
  simp [CvImpl.wait_enter, MutexImpl.unlock, hnot]

/-- Witness for C10 at a concrete state: the mutex is owned by thread 2 and
thread 1 calls wait. -/
theorem cv_wait_not_owner_witness :
    CvImpl.wait_enter ⟨[4]⟩ ⟨some 2, [3]⟩ 1 ⟨[], [], [], []⟩ =
      (.error (.runtime_error "release not-own"), ⟨[4]⟩, ⟨some 2, [3]⟩,
        ⟨[], [], [], []⟩) :=
  cv_wait_not_owner ⟨[4]⟩ ⟨some 2, [3]⟩ 1 ⟨[], [], [], []⟩ (by decide)

/-- The lifecycle invariant holds at boot. -/
theorem jinv_init : JInv JInit := by
  intro h t hu
  simp [JInit] at hu

/-- The lifecycle invariant is preserved by every lifecycle critical
section. -/
theorem jinv_step (s : JSys) (e : JEv) (s' : JSys) (hs : JInv s)
    (hstep : JStep s e s') : JInv s' := by
  cases hstep with
  | createEv t h ht hh hp ho =>
      intro h' u hu
      rcases eq_or_ne h' h with rfl | hne
      · have h2 : t = u := by simpa [Function.update_apply] using hu
        subst h2
        constructor
        · simp [Function.update_apply]
        · simp [Function.update_apply]
      · have hu' : s.impl_ptr h' = some u := by
          simpa [Function.update_apply, hne] using hu
        have hut : u ≠ t := by
          intro h1
          rw [h1] at hu'
          exact ho h' hu'
        have hold := hs h' u hu'
        constructor
        · simpa [Function.update_apply, hut] using hold.1
        · simpa [Function.update_apply, hut] using hold.2
  | runNextEv t ht =>
      intro h u hu
      have hold := hs h u hu
      refine ⟨?_, hold.2⟩
      rcases eq_or_ne u t with rfl | hne
      · simp [Function.update_apply]
      · simpa [Function.update_apply, hne] using hold.1
  | yieldEv t ht =>
      intro h u hu
      have hold := hs h u hu
      refine ⟨?_, hold.2⟩
      rcases eq_or_ne u t with rfl | hne
      · simp [Function.update_apply]
      · simpa [Function.update_apply, hne] using hold.1
  | joinImm c0 h0 hc0 hh0 =>
      exact hs
  | joinBlock c0 T0 h0 hc0 hh0 =>
      intro h u hu
      have hold := hs h u hu
      refine ⟨?_, hold.2⟩
      rcases eq_or_ne u c0 with rfl | hne
      · simp [Function.update_apply]
      · simpa [Function.update_apply, hne] using hold.1
  | exitEv T0 ht =>
      intro h u hu
      cases hpar : s.parent T0 with
      | some h0 =>
          rw [hpar] at hu
          have hne : h ≠ h0 := by
            intro h1
            rw [h1] at hu
            simp [exitImpl, Function.update_apply] at hu
          have hu' : s.impl_ptr h = some u := by
            simpa [exitImpl, Function.update_apply, hne] using hu
          have hold := hs h u hu'
          have huT : u ≠ T0 := by
            intro h1
            rw [h1] at hold
            rw [hold.2] at hpar
            have : h = h0 := by simpa using hpar
            exact hne this
          refine ⟨?_, hold.2⟩
          by_cases hj : s.st u = .inJoinQ T0
          · simp [exitSt, huT, hj]
          · simp [exitSt, huT, hj]
            exact hold.1
      | none =>
          rw [hpar] at hu
          have hu' : s.impl_ptr h = some u := by simpa [exitImpl] using hu
          have hold := hs h u hu'
          have huT : u ≠ T0 := by
            intro h1
            rw [h1] at hold
            rw [hold.2] at hpar
            exact absurd hpar (by simp)
          refine ⟨?_, hold.2⟩
          by_cases hj : s.st u = .inJoinQ T0
          · simp [exitSt, huT, hj]
          · simp [exitSt, huT, hj]
            exact hold.1

/-- The lifecycle invariant holds in every reachable state. -/
theorem jinv_reach (s : JSys) (h : JReach s) : JInv s := by
  induction h with
  | init => exact jinv_init
  | step s e s' _ hstep ih => exact jinv_step s e s' ih hstep

/-- C5: `thread::join` through a null handle changes nothing and raises no
error; through a live handle it puts the caller into the target's
join-waiters queue and the caller is no longer runnable; a waiter stays in
the join-waiters queue across every critical section except the target's
exit wrapper, which runs only after the target's user function returned and
is the one step that moves every waiter back to the ready queue; and a
live handle always designates a target that has not yet exited.  Together:
`join` returns only after the target's user function has completed, and
joining through a null handle (target already exited, or handle moved-from
or destroyed) returns immediately. -/
theorem thread_join_spec :
    (∀ s caller h s', JStep s (.joinImm caller h) s' →
      s' = s ∧ s.impl_ptr h = none) ∧
    (∀ s caller T s', JStep s (.joinBlock caller T) s' →
      (∃ h, s.impl_ptr h = some T) ∧ s'.st caller = .inJoinQ T ∧
        s'.impl_ptr = s.impl_ptr ∧ s'.parent = s.parent) ∧
    (∀ s e s' c T, JStep s e s' → s.st c = .inJoinQ T → e ≠ .exitEv T →
      s'.st c = .inJoinQ T) ∧
    (∀ s T s' c, JStep s (.exitEv T) s' → s.st c = .inJoinQ T →
      s'.st c = .readyS) ∧
    (∀ (s : JSys) (c T : Tid), s.st c = .inJoinQ T →
      s.st c ≠ .readyS ∧ s.st c ≠ .runningS) ∧
    (∀ s caller T s', JReach s → JStep s (.joinBlock caller T) s' →
      s.st T ≠ .exitedS) := by
  refine ⟨?_, ?_, ?_, ?_, ?_, ?_⟩
  · intro s caller h s' hstep
    cases hstep with
    | joinImm c0 h0 hc hh => exact ⟨rfl, hh⟩
  · intro s caller T s' hstep
    cases hstep with
    | joinBlock c0 T0 h0 hc hh =>
        exact ⟨⟨h0, hh⟩, by simp [Function.update_apply], rfl, rfl⟩
  · intro s e s' c T hstep hc hne
    cases hstep with
    | createEv t h ht hh hp ho =>
        have hct : c ≠ t := by
          intro h1
          rw [h1, ht] at hc
          exact absurd hc (by simp)
        simpa [Function.update_apply, hct] using hc
    | runNextEv t ht =>
        have hct : c ≠ t := by
          intro h1
          rw [h1, ht] at hc
          exact absurd hc (by simp)
        simpa [Function.update_apply, hct] using hc
    | yieldEv t ht =>
        have hct : c ≠ t := by
          intro h1
          rw [h1, ht] at hc
          exact absurd hc (by simp)
        simpa [Function.update_apply, hct] using hc
    | joinImm c0 h0 hc0 hh0 => exact hc
    | joinBlock c0 T0 h0 hc0 hh0 =>
        have hcc : c ≠ c0 := by
          intro h1
          rw [h1, hc0] at hc
          exact absurd hc (by simp)
        simpa [Function.update_apply, hcc] using hc
    | exitEv T0 ht =>
        have hTT : T0 ≠ T := by
          intro h1
          exact hne (by rw [h1])
        have hcT : c ≠ T0 := by
          intro h1
          rw [h1, ht] at hc
          exact absurd hc (by simp)
        simp [exitSt, hcT, hc, hTT.symm]
  · intro s T s' c hstep hc
    cases hstep with
    | exitEv T0 ht =>
        have hcT : c ≠ T := by
          intro h1
          rw [h1, ht] at hc
          exact absurd hc (by simp)
        simp [exitSt, hcT, hc]
  · intro s c T h
    rw [h]
    exact ⟨by simp, by simp⟩
  · intro s caller T s' hreach hstep
    cases hstep with
    | joinBlock c0 T0 h0 hc hh =>
        exact (jinv_reach s hreach h0 T hh).1

/-- Witness for C5: in the concrete run, thread 2 blocks joining thread 1
through handle 0, and the join target has indeed not exited. -/
theorem thread_join_spec_witness : jW4.st 1 ≠ .exitedS := by
  have hp1 : ∀ u, JInit.parent u ≠ some 0 := by
    intro u
    simp [JInit]
  have ho1 : ∀ h', JInit.impl_ptr h' ≠ some 1 := by
    intro h'
    simp [JInit]
  have r1 : JReach jW1 :=
    JReach.step JInit (.createEv 1 0) jW1 JReach.init
      (JStep.createEv JInit 1 0 rfl rfl hp1 ho1)
  have r2 : JReach jW2 :=
    JReach.step jW1 (.runNextEv 1) jW2 r1 (JStep.runNextEv jW1 1 rfl)
  have hp3 : ∀ u, jW2.parent u ≠ some 1 := by
    intro u
    rcases eq_or_ne u 1 with rfl | hne
    · simp [jW2, jW1, JInit, Function.update_apply]
    · simp [jW2, jW1, JInit, Function.update_apply, hne]
  have ho3 : ∀ h', jW2.impl_ptr h' ≠ some 2 := by
    intro h'
    rcases eq_or_ne h' 0 with rfl | hne
    · simp [jW2, jW1, JInit, Function.update_apply]
    · simp [jW2, jW1, JInit, Function.update_apply, hne]
  have r3 : JReach jW3 :=
    JReach.step jW2 (.createEv 2 1) jW3 r2
      (JStep.createEv jW2 2 1 rfl rfl hp3 ho3)
  have r4 : JReach jW4 :=
    JReach.step jW3 (.runNextEv 2) jW4 r3 (JStep.runNextEv jW3 2 rfl)
  exact thread_join_spec.2.2.2.2.2 jW4 2 1 jW5 r4
    (JStep.joinBlock jW4 2 1 0 rfl rfl)

/-- The deferred-free invariant holds at boot. -/
theorem dinv_init : DInv DInit := by
  refine ⟨?_, ?_, ?_, ?_⟩
  · intro t ht
    simp [DInit] at ht
  · intro t ht
    simp [DInit] at ht
  · intro h
    rfl
  · intro c hc
    simp [DInit] at hc

/-- The deferred-free invariant is preserved by every step. -/
theorem dinv_step (s : DSys) (e : DEv) (s' : DSys) (hs : DInv s)
    (hstep : DStep s e s') : DInv s' := by
  cases hstep with
  | lockEv c hg =>
      obtain ⟨h1, h2, h3, h4⟩ := hs
      refine ⟨h1, h2, h3, ?_⟩
      intro c' hc'
      have hg' := h4 c' hc'
      rw [hg] at hg'
      exact absurd hg' (by simp)
  | unlockEv c hg hm =>
      obtain ⟨h1, h2, h3, h4⟩ := hs
      refine ⟨h1, h2, h3, ?_⟩
      intro c' hc'
      rw [hm] at hc'
      exact absurd hc' (by simp)
  | createEv c t hg hm ht =>
      obtain ⟨h1, h2, h3, h4⟩ := hs
      refine ⟨?_, ?_, h3, h4⟩
      · intro u hu
        have hp := h1 u hu
        have hut : u ≠ t := by
          intro h0
          rw [h0, ht] at hp
          exact absurd hp (by simp)
        simpa [Function.update_apply, hut] using hp
      · intro u hu
        rcases eq_or_ne u t with rfl | hne
        · simp [Function.update_apply] at hu
        · exact h2 u (by simpa [Function.update_apply, hne] using hu)
  | switchEv c t next hg hm ht hn =>
      obtain ⟨h1, h2, h3, h4⟩ := hs
      refine ⟨?_, ?_, h3, h4⟩
      · intro u hu
        have hp := h1 u hu
        have hut : u ≠ t := by
          intro h0
          rw [h0, ht] at hp
          exact absurd hp (by simp)
        have hun : u ≠ next := by
          intro h0
          rw [h0, hn] at hp
          exact absurd hp (by simp)
        simpa [Function.update_apply, hut, hun] using hp
      · intro u hu
        rcases eq_or_ne u next with rfl | hne1
        · simp [Function.update_apply] at hu
        · rcases eq_or_ne u t with rfl | hne2
          · simp [Function.update_apply, hne1] at hu
          · exact h2 u (by simpa [Function.update_apply, hne1, hne2] using hu)
  | firstRunEv c next hg hm hn hc =>
      obtain ⟨h1, h2, h3, h4⟩ := hs
      refine ⟨?_, ?_, h3, h4⟩
      · intro u hu
        have hp := h1 u hu
        have hun : u ≠ next := by
          intro h0
          rw [h0, hn] at hp
          exact absurd hp (by simp)
        simpa [Function.update_apply, hun] using hp
      · intro u hu
        rcases eq_or_ne u next with rfl | hne
        · simp [Function.update_apply] at hu
        · exact h2 u (by simpa [Function.update_apply, hne] using hu)
  | exitParkEv c t next hg hm ht hn =>
      obtain ⟨h1, h2, h3, h4⟩ := hs
      have hslot : s.last_free_thread = none := h3 hm
      have hnopark : ∀ u, s.st u ≠ .parked := by
        intro u hu
        have hp := h2 u hu
        rw [hslot] at hp
        exact absurd hp (by simp)
      have htn : t ≠ next := by
        intro h0
        rw [h0, hn] at ht
        exact absurd ht (by simp)
      refine ⟨?_, ?_, ?_, ?_⟩
      · intro u hu
        have hut : t = u := by simpa using hu
        rw [← hut]
        simp [Function.update_apply, htn]
      · intro u hu
        rcases eq_or_ne u next with rfl | hne1
        · simp [Function.update_apply] at hu
        · rcases eq_or_ne u t with rfl | hne2
          · rfl
          · have hp : s.st u = .parked := by
              simpa [Function.update_apply, hne1, hne2] using hu
            exact absurd hp (hnopark u)
      · intro h0
        exact absurd h0 (by simp)
      · intro c' hc'
        have hcc : c = c' := by simpa using hc'
        rw [← hcc]
        exact hg
  | reclaimEv c hg hm =>
      obtain ⟨h1, h2, h3, h4⟩ := hs
      refine ⟨?_, ?_, ?_, ?_⟩
      · intro u hu
        exact absurd hu (by simp)
      · intro u hu
        cases hsl : s.last_free_thread with
        | some p =>
            rw [hsl] at hu
            rcases eq_or_ne u p with rfl | hne
            · simp [reclaimSt, Function.update_apply] at hu
            · have hup : s.st u = .parked := by
                simpa [reclaimSt, Function.update_apply, hne] using hu
              have hq := h2 u hup
              rw [hsl] at hq
              have hup2 : u = p := (by simpa using hq : p = u).symm
              exact absurd hup2 hne
        | none =>
            rw [hsl] at hu
            have hup : s.st u = .parked := by simpa [reclaimSt] using hu
            have hq := h2 u hup
            rw [hsl] at hq
            exact absurd hq (by simp)
      · intro h0
        rfl
      · intro c' hc'
        exact absurd hc' (by simp)

/-- The deferred-free invariant holds in every reachable state. -/
theorem dinv_reach (s : DSys) (h : DReach s) : DInv s := by
  induction h with
  | init => exact dinv_init
  | step s e s' _ hstep ih => exact dinv_step s e s' ih hstep

/-- C8: at every instant, at most one exited-and-unfreed thread exists in
the whole system (the single `last_free_thread` slot holds it), hence at
most one per CPU; a thread whose storage has been freed stays freed and a
thread can start running only from the ready queue, so no CPU ever executes
on a freed stack; an exiting thread parks itself in the slot without freeing
its own stack while the next thread resumes on its CPU; and the reclaim step
— the delete performed by the next thread to resume, after the context
switch — frees the parked thread and clears the slot. -/
theorem deferred_free_spec :
    (∀ s, DReach s → ∀ t u, s.st t = .parked → s.st u = .parked → t = u) ∧
    (∀ s e s' t, DStep s e s' → s.st t = .freedS → s'.st t = .freedS) ∧
    (∀ s e s' t c, DStep s e s' → s'.st t = .runningOn c →
      s.st t = .runningOn c ∨ s.st t = .readyS) ∧
    (∀ s c t next s', DStep s (.exitParkEv c t next) s' →
      s'.last_free_thread = some t ∧ s'.st t = .parked ∧
        s'.mid_switch = some c ∧ s.st t = .runningOn c) ∧
    (∀ s c s', DStep s (.reclaimEv c) s' →
      s'.last_free_thread = none ∧ s'.mid_switch = none ∧
        (∀ p, s.last_free_thread = some p → s'.st p = .freedS)) := by
  refine ⟨?_, ?_, ?_, ?_, ?_⟩
  · intro s hreach t u hpt hpu
    obtain ⟨-, h2, -, -⟩ := dinv_reach s hreach
    have ht := h2 t hpt
    have hu := h2 u hpu
    rw [ht] at hu
    exact (by simpa using hu : t = u)
  · intro s e s' t hstep hf
    cases hstep with
    | lockEv c hg => exact hf
    | unlockEv c hg hm => exact hf
    | createEv c t0 hg hm ht =>
        have hne : t ≠ t0 := by
          intro h0
          rw [h0, ht] at hf
          exact absurd hf (by simp)
        simpa [Function.update_apply, hne] using hf
    | switchEv c t0 next hg hm ht hn =>
        have hne1 : t ≠ t0 := by
          intro h0
          rw [h0, ht] at hf
          exact absurd hf (by simp)
        have hne2 : t ≠ next := by
          intro h0
          rw [h0, hn] at hf
          exact absurd hf (by simp)
        simpa [Function.update_apply, hne1, hne2] using hf
    | firstRunEv c next hg hm hn hc =>
        have hne : t ≠ next := by
          intro h0
          rw [h0, hn] at hf
          exact absurd hf (by simp)
        simpa [Function.update_apply, hne] using hf
    | exitParkEv c t0 next hg hm ht hn =>
        have hne1 : t ≠ t0 := by
          intro h0
          rw [h0, ht] at hf
          exact absurd hf (by simp)
        have hne2 : t ≠ next := by
          intro h0
          rw [h0, hn] at hf
          exact absurd hf (by simp)
        simpa [Function.update_apply, hne1, hne2] using hf
    | reclaimEv c hg hm =>
        cases hsl : s.last_free_thread with
        | some p =>
            rcases eq_or_ne t p with rfl | hne
            · simp [reclaimSt, hsl, Function.update_apply]
            · simpa [reclaimSt, hsl, Function.update_apply, hne] using hf
        | none =>
            simpa [reclaimSt, hsl] using hf
  · intro s e s' t c hstep hrun
    cases hstep with
    | lockEv c0 hg => exact Or.inl hrun
    | unlockEv c0 hg hm => exact Or.inl hrun
    | createEv c0 t0 hg hm ht =>
        rcases eq_or_ne t t0 with rfl | hne
        · simp [Function.update_apply] at hrun
        · exact Or.inl (by simpa [Function.update_apply, hne] using hrun)
    | switchEv c0 t0 next hg hm ht hn =>
        rcases eq_or_ne t next with rfl | hne1
        · exact Or.inr hn
        · rcases eq_or_ne t t0 with rfl | hne2
          · simp [Function.update_apply, hne1] at hrun
          · exact Or.inl
              (by simpa [Function.update_apply, hne1, hne2] using hrun)
    | firstRunEv c0 next hg hm hn hc =>
        rcases eq_or_ne t next with rfl | hne
        · exact Or.inr hn
        · exact Or.inl (by simpa [Function.update_apply, hne] using hrun)
    | exitParkEv c0 t0 next hg hm ht hn =>
        rcases eq_or_ne t next with rfl | hne1
        · exact Or.inr hn
        · rcases eq_or_ne t t0 with rfl | hne2
          · simp [Function.update_apply, hne1] at hrun
          · exact Or.inl
              (by simpa [Function.update_apply, hne1, hne2] using hrun)
    | reclaimEv c0 hg hm =>
        cases hsl : s.last_free_thread with
        | some p =>
            rw [hsl] at hrun
            rcases eq_or_ne t p with rfl | hne
            · simp [reclaimSt, Function.update_apply] at hrun
            · exact Or.inl
                (by simpa [reclaimSt, Function.update_apply, hne] using hrun)
        | none =>
            rw [hsl] at hrun
            exact Or.inl (by simpa [reclaimSt] using hrun)
  · intro s c t next s' hstep
    cases hstep with
    | exitParkEv c0 t0 next0 hg hm ht hn =>
        have htn : t ≠ next := by
          intro h0
          rw [h0, hn] at ht
          exact absurd ht (by simp)
        refine ⟨rfl, ?_, rfl, ht⟩
        simp [Function.update_apply, htn]
  · intro s c s' hstep
    cases hstep with
    | reclaimEv c0 hg hm =>
        refine ⟨rfl, rfl, ?_⟩
        intro p hp
        rw [hp]
        simp [reclaimSt, Function.update_apply]

/-- Witness for C8: in the concrete run `dW1`-`dW5`, exiting thread 5 parks
itself in the slot, and the only parked thread is thread 5. -/
theorem deferred_free_spec_witness :
    dW5.last_free_thread = some 5 ∧ dW5.st 5 = .parked ∧ (5 : Tid) = 5 := by
  have r1 : DReach dW1 :=
    DReach.step DInit (.lockEv 0) dW1 DReach.init (DStep.lockEv DInit 0 rfl)
  have r2 : DReach dW2 :=
    DReach.step dW1 (.createEv 0 5) dW2 r1 (DStep.createEv dW1 0 5 rfl rfl rfl)
  have r3 : DReach dW3 :=
    DReach.step dW2 (.createEv 0 6) dW3 r2 (DStep.createEv dW2 0 6 rfl rfl rfl)
  have hc4 : ∀ t, dW3.st t ≠ .runningOn 0 := by
    intro t
    rcases eq_or_ne t 6 with rfl | h6
    · simp [dW3, dW2, dW1, DInit, Function.update_apply]
    · rcases eq_or_ne t 5 with rfl | h5
      · simp [dW3, dW2, dW1, DInit, Function.update_apply]
      · simp [dW3, dW2, dW1, DInit, Function.update_apply, h6, h5]
  have r4 : DReach dW4 :=
    DReach.step dW3 (.firstRunEv 0 5) dW4 r3
      (DStep.firstRunEv dW3 0 5 rfl rfl rfl hc4)
  have hstep5 : DStep dW4 (.exitParkEv 0 5 6) dW5 :=
    DStep.exitParkEv dW4 0 5 6 rfl rfl rfl rfl
  have r5 : DReach dW5 := DReach.step dW4 (.exitParkEv 0 5 6) dW5 r4 hstep5
  have hpark := deferred_free_spec.2.2.2.1 dW4 0 5 6 dW5 hstep5
  exact ⟨hpark.1, hpark.2.1,
    deferred_free_spec.1 dW5 r5 5 5 hpark.2.1 hpark.2.1⟩

/-- C6 fails on the code: in `hS0` the invariant holds and handle 0 owns the
live internal thread 0; after `handle0 = std::move(handle1)` (lines 256-266)
handle 0 points at thread 1 and thread 1's back-link is re-pointed at
handle 0, but thread 0's back-link still points at handle 0 — the previous
link is severed on neither side and the invariant is broken.  When thread 0
later exits, its sever writes through the stale back-link and wipes
handle 0's ownership of thread 1. -/
theorem move_assign_breaks_link :
    linkedB hS0 = true ∧
    (move_assign 0 1 hS0).impl_ptr 0 = some 1 ∧
    (move_assign 0 1 hS0).parent 1 = some 0 ∧
    (move_assign 0 1 hS0).parent 0 = some 0 ∧
    linkedB (move_assign 0 1 hS0) = false ∧
    (exit_sever 0 (move_assign 0 1 hS0)).impl_ptr 0 = none := by
  decide

/-- C7 fails on the code: thread 0 exits while still owned by handle 0
(state `hS2`); the exit wrapper (lines 217-218) clears the handle's pointer
but leaves the exiting thread's own `parent` back-link set; after handle 0
is move-assigned thread 1 (from handle 2), the deferred destructor of
thread 0 (lines 223-229) writes `parent->impl_ptr = nullptr` through the
stale back-link — the destructor does touch the handle again and wipes its
ownership of thread 1. -/
theorem exit_keeps_backlink :
    (exit_sever 0 hS2).impl_ptr 0 = none ∧
    (exit_sever 0 hS2).parent 0 = some 0 ∧
    (move_assign 0 2 (exit_sever 0 hS2)).impl_ptr 0 = some 1 ∧
    (impl_dtor 0 (move_assign 0 2 (exit_sever 0 hS2))).impl_ptr 0 = none := by
  decide

end ThreadLib
